import Mathlib

set_option maxHeartbeats 1000000
set_option maxRecDepth 8000

/-!
Shallow embedding of `src/bstrings.c` (Binary String Toolkit).

The program's core is `output_hex_escaped_string`, which scans a buffer of
characters, keeps the ASCII hexadecimal digits, and prints them as a
`\xHL`-escaped, optionally line-wrapped, syntax-framed string literal.
Characters are read from the buffer through a signed `char` and widened to
`int` before classification, which `sext` models.  Output is modelled as the
list of characters written to the output stream, in order.
-/

/-- Widening of a byte value `0..255` stored in a signed `char` to the C `int`
obtained when the formatter loads `c = ptr_char_array[i]`. -/
def sext (b : Nat) : Int := if b < 128 then (b : Int) else (b : Int) - 256

/-- Classification used by the formatter's outer `switch`: the GCC case ranges
`48 ... 57`, `65 ... 70` and `97 ... 102` (ASCII `0-9`, `A-F`, `a-f`). -/
def isHexDigitInt (c : Int) : Bool :=
  decide ((48 ≤ c ∧ c ≤ 57) ∨ (65 ≤ c ∧ c ≤ 70) ∨ (97 ≤ c ∧ c ≤ 102))

/-- The character written by `putchar(c)` for an accepted hex digit `c`. -/
def charOf (c : Int) : Char := Char.ofNat c.toNat

/-- The ten characters written by `printf("buffer += ")` in the Python-syntax
wrap sequence. -/
def bufPreamble : List Char := ['b', 'u', 'f', 'f', 'e', 'r', ' ', '+', '=', ' ']

/-- The wrap sequence emitted before the `\x` escape of a high nibble, from the
`if (string_width != 0) { if (ai % (string_width*2) == 0) { switch ... } }`
block of `output_hex_escaped_string`.  `lang` is `*output_lang`
(1 = C, 2 = Python, anything else falls to the default arm). -/
def wrapSeq (lang width ai : Nat) : List Char :=
  if width ≠ 0 then
    if ai % (width * 2) = 0 then
      match lang with
      | 1 => (if ai ≠ 0 then ['\"', '\n'] else []) ++ ['\"']
      | 2 => (if ai ≠ 0 then ['\"', '\n'] else []) ++ bufPreamble ++ ['\"']
      | _ => if ai ≠ 0 then ['\n'] else []
    else []
  else []

/-- The formatter's scanning loop (`for (i = 0; i < *array_size; i++)`).  The
input list holds the `int` values obtained from the buffer bytes; the result is
`(characters written, final value of ai, invalidhexchar)`. -/
def hexLoop (lang width : Nat) : Nat → List Int → List Char × Nat × Nat
  | ai, [] => ([], ai, 0)
  | ai, c :: rest =>
    if isHexDigitInt c then
      let chunk := if ai % 2 = 0
        then wrapSeq lang width ai ++ ['\\', 'x', charOf c]
        else [charOf c]
      let r := hexLoop lang width (ai + 1) rest
      (chunk ++ r.1, r.2.1, r.2.2)
    else if c = -1 ∨ c = 10 ∨ c = 0 then
      hexLoop lang width ai rest
    else
      let r := hexLoop lang width ai rest
      (r.1, r.2.1, r.2.2 + 1)

/-- The closing quote written after the scan for the C and Python syntaxes
(`switch (*output_lang) { case 1: putchar('"'); case 2: putchar('"'); }`). -/
def closingQuote (lang : Nat) : List Char :=
  match lang with
  | 1 => ['\"']
  | 2 => ['\"']
  | _ => []

/-- The variable-name preamble printed when the verbose flag is set. -/
def verbosePreamble (lang : Nat) : List Char :=
  match lang with
  | 1 => "unsigned char buffer[] =\n".toList
  | 2 => "buffer =  \"\"\n".toList
  | _ => []

/-- The advisory line printed when verbose is set and invalid characters were
seen. -/
def warningLine (n : Nat) : List Char :=
  ("[-] Warning: " ++ toString n ++
    " non-hexadecimal character(s) detected in input.\n").toList

/-- Model of `output_hex_escaped_string`: everything the call writes to the
output stream, in order.  `input` is the list of `int` values the loop reads
from the buffer (one per scanned position), `lang` is `*output_lang`, `width`
is `string_width`, and the two flags are the global `verbose_flag` and
`interactive_flag`. -/
def output_hex_escaped_string (input : List Int) (lang width : Nat)
    (verbose interactive : Bool) : List Char :=
  let r := hexLoop lang width 0 input
  (if interactive then ['\n'] else []) ++
  (if verbose then verbosePreamble lang else []) ++
  r.1 ++ closingQuote lang ++ ['\n'] ++
  (if verbose && r.2.2 > 0 then warningLine r.2.2 else [])

/-- The wrap marker of a given syntax, with the close-quote/newline part
suppressed for the very first byte (`first = true` models `ai == 0`). -/
def wrapMarker (lang : Nat) (first : Bool) : List Char :=
  match lang with
  | 1 => (if first then [] else ['\"', '\n']) ++ ['\"']
  | 2 => (if first then [] else ['\"', '\n']) ++ bufPreamble ++ ['\"']
  | _ => if first then [] else ['\n']

/-- The wrap marker emitted before byte number `k` (counted from 0): present
exactly when the width is non-zero and `k` is a multiple of the width. -/
def markAt (lang width k : Nat) : List Char :=
  if width ≠ 0 ∧ k % width = 0 then wrapMarker lang (k == 0) else []

/-- Digit-at-a-time rendering of a list of accepted hex-digit characters,
starting at digit index `ai`: the per-digit effect of the formatter's loop. -/
def renderFrom (lang width : Nat) : Nat → List Char → List Char
  | _, [] => []
  | ai, d :: ds =>
    (if ai % 2 = 0 then wrapSeq lang width ai ++ ['\\', 'x', d] else [d]) ++
    renderFrom lang width (ai + 1) ds

/-- Byte-at-a-time rendering of a list of accepted hex-digit characters: each
pair `h, l` becomes its wrap marker (when due) followed by the contiguous
escape `\xhl`, and a trailing lone digit becomes a lone `\xh`.  `k` is the
byte index of the first pair. -/
def renderDigits (lang width : Nat) : Nat → List Char → List Char
  | _, [] => []
  | k, [h] => markAt lang width k ++ ['\\', 'x', h]
  | k, h :: l :: rest =>
    markAt lang width k ++ ['\\', 'x', h, l] ++ renderDigits lang width (k + 1) rest

/-- The hex-digit characters the formatter accepts from an input, in order. -/
def acceptedDigits (input : List Int) : List Char :=
  (input.filter isHexDigitInt).map charOf

/-- Removal of every occurrence of the Python accumulation preamble
`buffer += ` from a character list. -/
def stripBuf (l : List Char) : List Char :=
  match l with
  | [] => []
  | c :: rest =>
    if bufPreamble.isPrefixOf (c :: rest) then stripBuf (rest.drop 9)
    else c :: stripBuf rest
termination_by l.length
decreasing_by
  · simp only [List.length_drop, List.length_cons]
    omega
  · simp

/-- Framing characters of the emitted literal: the `\x` escape characters, the
quote character and the newline. -/
def frameChar (c : Char) : Bool := c == '\\' || c == 'x' || c == '\"' || c == '\n'

/-- Stripping the formatter's framing from its output: remove the Python
`buffer += ` preambles, the escape characters `\` and `x`, the quotes and the
newlines.  Only the payload hex digits survive. -/
def stripFraming (l : List Char) : List Char :=
  (stripBuf l).filter (fun c => !frameChar c)

/-- Characters that increment `invalidhexchar`: neither hex digits nor the
silently skipped `EOF` (-1), newline (10) and null (0) values. -/
def isInvalidChar (c : Int) : Bool :=
  !isHexDigitInt c && !(decide (c = -1 ∨ c = 10 ∨ c = 0))

/-- The constant `BADCHAR_HEX_SEQLEN` from `bstrings.c`. -/
def BADCHAR_HEX_SEQLEN : Nat := 510

/-- The two lowercase hexadecimal digit characters produced by
`sprintf(..., "%02x", b)` for a byte value `b` in `0..255`. -/
def hex2 (b : Nat) : List Char := [Nat.digitChar (b / 16), Nat.digitChar (b % 16)]

/-- Model of `generate_badchar_sequence`: the character array filled by the
loop `for (i = 1; i < 256; i++) length += sprintf(ptr+length, "%02x", i)`. -/
def generate_badchar_sequence : List Char :=
  (List.range' 1 255).flatMap hex2

/-- Numeric value of a hexadecimal digit character. -/
def hexVal (c : Char) : Nat :=
  if '0' ≤ c ∧ c ≤ '9' then c.toNat - 48
  else if 'a' ≤ c ∧ c ≤ 'f' then c.toNat - 87
  else if 'A' ≤ c ∧ c ≤ 'F' then c.toNat - 55
  else 0

/-- Decoding of a character list into the byte values of its consecutive
hex-digit pairs (a trailing lone digit is ignored). -/
def decodePairs : List Char → List Nat
  | h :: l :: rest => (hexVal h * 16 + hexVal l) :: decodePairs rest
  | _ => []

/-- Model of `read_and_store_char_input`'s reading loop: `stdin` is the byte
sequence delivered by `getchar` before `EOF`, `size` the value behind the
`array_size` pointer (initialized to 1 by `main`).  Each stored byte is
followed by `*array_size += 1`; the result is the stored buffer and the final
`*array_size`. -/
def read_and_store_char_input : List Nat → Nat → List Nat × Nat
  | [], size => ([], size)
  | c :: rest, size =>
    let r := read_and_store_char_input rest (size + 1)
    (c :: r.1, r.2)

/-- The message printed by `read_from_file` when `fopen` returns `NULL`. -/
def errorMsgFor (filename : String) : List Char :=
  ("Error: input filename \"" ++ filename ++ "\" cannot be read.\n").toList

/-- Codes of the two hex-digit characters stored by the hex-expand mode for one
input byte (`snprintf(xc, 3, "%02x", c)` followed by storing `xc[0], xc[1]`). -/
def hex2codes (b : Nat) : List Nat := (hex2 b).map Char.toNat

/-- The storing loop of `read_from_file` for modes 1 and 2: mode 1 stores each
byte and grows `*array_size` by one, mode 2 stores the two hex-digit characters
of each byte and grows `*array_size` by two; any other mode stores nothing. -/
def fileStoreLoop (mode : Nat) : List Nat → Nat → List Nat × Nat
  | [], size => ([], size)
  | c :: rest, size =>
    match mode with
    | 1 =>
      let r := fileStoreLoop mode rest (size + 1)
      (c :: r.1, r.2)
    | 2 =>
      let r := fileStoreLoop mode rest (size + 2)
      (hex2codes c ++ r.1, r.2)
    | _ => fileStoreLoop mode rest size

/-- Model of `read_from_file`.  The file system is modelled by `content`:
`none` when `fopen` fails, `some bytes` when the file opens and delivers
`bytes`.  On `fopen` failure the function prints the error message to standard
output and the process exits with `EXIT_FAILURE`, modelled as
`Except.error (written characters, exit status)`.  On success it returns
`Except.ok (stored buffer, final *array_size, characters written to standard
output)`; only the dump mode (mode 0) writes to standard output.  Mode 2
additionally performs `*array_size += 1` before its loop. -/
def read_from_file (filename : String) (content : Option (List Nat))
    (size0 mode : Nat) : Except (List Char × Nat) (List Nat × Nat × List Char) :=
  match content with
  | none => Except.error (errorMsgFor filename, 1)
  | some bytes =>
    if 1 ≤ mode then
      let size1 := if mode = 2 then size0 + 1 else size0
      let r := fileStoreLoop mode bytes size1
      Except.ok (r.1, r.2, [])
    else
      Except.ok ([], size0, bytes.flatMap hex2)

/-- The text written by `print_usage`, transcribed from the `fprintf` calls
(the C line continuations keep the four leading spaces of each option line). -/
def print_usage (program_name : String) : List Char :=
  ("Usage: " ++ program_name ++ " [OPTION]...\n" ++
   " Convert input to specified binary string format.\n\n" ++
   " At least one of the below options must be given:\n" ++
   "    -D, --dump-file=FILE    Dump content of file FILE in hexadecimal format\n" ++
   "    -x, --hex-escape        Escape input hexadecimal string\n" ++
   "    -b, --gen-badchar       Generate a bad character sequence string\n" ++
   "    \n" ++
   " The below switches are optional:\n" ++
   "    -f, --file=FILE         Read input from file FILE instead of stdin\n" ++
   "    -w, --width=bytes       Break binary strings to specified length in bytes\n" ++
   "    -s, --syntax=LANG       Syntax of the binary string output\n" ++
   "    -h, --help              Display this help\n" ++
   "       --interactive        Enter interactive mode\n" ++
   "       --verbose            Enable verbose output\n" ++
   "       --version            Print version information\n" ++
   "    \n").toList

/-- Verbose banner of the hex-escape action. -/
def convertMsg : List Char :=
  "[*] Convert hexadecimal input to an escaped binary string.\n".toList

/-- Verbose banner of the gen-badchar action. -/
def genMsg : List Char :=
  "[*] Generating bad character binary string.\n".toList

/-- Verbose line reporting the width limit. -/
def widthMsg (w : Nat) : List Char :=
  ("[+] Binary string width is limited to " ++ toString w ++ " bytes.\n").toList

/-- Model of `main` after option parsing.  `argc` and `optind` are the values
seen at the `if ((optind < argc) || argc == 1)` check; the five booleans are
the flag values the dispatch reads.  A flag whose option was given on the
command line is `true`, but the C source never initializes the four
action/file flags (only `doLimitBinaryStringWidth = false`), so an invocation
that omits those options reads indeterminate values for them: such a run of
the program corresponds to some arbitrary instantiation of these boolean
parameters, and only conclusions that hold for every instantiation are
guaranteed by the source.  In particular the final fall-through arm `([], 0)`
is merely the all-`false` instantiation of a path whose behavior the source
leaves undefined.  `output_lang` and `string_width` are the parsed option
values, and the input sources are modelled as in `read_from_file`.  The
result is the pair (characters written to standard output, exit status).
The formatter is fed the stored buffer; the trailing never-written buffer
positions that the over-counted `array_size` makes it scan (see the claims
about the collector) hold indeterminate memory and are not modelled. -/
def bst_main (argc optind : Nat)
    (doOutputHexEscapedString doOutputBadCharString doHexDumpFile
      doReadFromFile doLimitBinaryStringWidth : Bool)
    (output_lang string_width : Nat) (verbose interactive : Bool)
    (program_name filename : String) (fileContent : Option (List Nat))
    (stdinBytes : List Nat) : List Char × Nat :=
  if optind < argc ∨ argc = 1 then (print_usage program_name, 0)
  else if doOutputHexEscapedString then
    let pre := if verbose then
        convertMsg ++ (if doLimitBinaryStringWidth then widthMsg string_width else [])
      else []
    let rd : Except (List Char × Nat) (List Nat × Nat × List Char) :=
      if doHexDumpFile then read_from_file filename fileContent 1 2
      else if doReadFromFile then read_from_file filename fileContent 1 1
      else
        let r := read_and_store_char_input stdinBytes 1
        Except.ok (r.1, r.2, [])
    match rd with
    | Except.error (out, code) => (pre ++ out, code)
    | Except.ok (buf, _, _) =>
      (pre ++ output_hex_escaped_string (buf.map sext) output_lang string_width
        verbose interactive, 0)
  else if doHexDumpFile then
    match read_from_file filename fileContent 0 0 with
    | Except.error (out, code) => (out, code)
    | Except.ok (_, _, out) => (out, 0)
  else if doOutputBadCharString then
    let pre := if verbose then
        genMsg ++ (if doLimitBinaryStringWidth then widthMsg string_width else [])
      else []
    (pre ++ output_hex_escaped_string
      ((generate_badchar_sequence.map Char.toNat).map sext) output_lang
      string_width verbose interactive, 0)
  else ([], 0)

/-! Basic properties of the stripping functions. -/

theorem stripBuf_nil : stripBuf [] = [] := by
  rw [stripBuf]

theorem stripBuf_cons_of_not (c : Char) (rest : List Char)
    (h : ¬ bufPreamble.isPrefixOf (c :: rest)) :
    stripBuf (c :: rest) = c :: stripBuf rest := by
  rw [stripBuf]
  simp [h]

theorem not_bufPreamble_isPrefixOf_of_ne (c : Char) (rest : List Char) (h : c ≠ 'b') :
    ¬ bufPreamble.isPrefixOf (c :: rest) := by
  simp only [bufPreamble, List.isPrefixOf, Bool.and_eq_true, beq_iff_eq]
  intro hc
  exact h hc.1.symm

theorem not_bufPreamble_isPrefixOf_of_head (c : Char) (rest : List Char)
    (h : rest.head? ≠ some 'u') :
    ¬ bufPreamble.isPrefixOf (c :: rest) := by
  cases rest with
  | nil => simp [bufPreamble, List.isPrefixOf]
  | cons d t =>
    simp only [List.head?_cons, ne_eq, Option.some.injEq] at h
    simp only [bufPreamble, List.isPrefixOf, Bool.and_eq_true, beq_iff_eq]
    intro hc
    exact h hc.2.1.symm

theorem stripBuf_bufPreamble (rest : List Char) :
    stripBuf (bufPreamble ++ rest) = stripBuf rest := by
  show stripBuf ('b' :: (['u', 'f', 'f', 'e', 'r', ' ', '+', '=', ' '] ++ rest)) = _
  rw [stripBuf]
  have hpre : bufPreamble.isPrefixOf
      ('b' :: (['u', 'f', 'f', 'e', 'r', ' ', '+', '=', ' '] ++ rest)) = true := by
    simp [bufPreamble, List.isPrefixOf]
  rw [if_pos hpre]
  have hlen : (['u', 'f', 'f', 'e', 'r', ' ', '+', '=', ' '] : List Char).length = 9 := rfl
  rw [← hlen, List.drop_left]

theorem stripFraming_nil : stripFraming [] = [] := by
  simp [stripFraming, stripBuf_nil]

theorem stripFraming_cons_frame (c : Char) (rest : List Char)
    (hf : frameChar c = true) (hb : c ≠ 'b') :
    stripFraming (c :: rest) = stripFraming rest := by
  unfold stripFraming
  rw [stripBuf_cons_of_not c rest (not_bufPreamble_isPrefixOf_of_ne c rest hb)]
  simp [hf]

theorem stripFraming_cons_keep (c : Char) (rest : List Char)
    (hf : frameChar c = false) (h : rest.head? ≠ some 'u') :
    stripFraming (c :: rest) = c :: stripFraming rest := by
  unfold stripFraming
  rw [stripBuf_cons_of_not c rest (not_bufPreamble_isPrefixOf_of_head c rest h)]
  simp [hf]

theorem stripFraming_bufPreamble (rest : List Char) :
    stripFraming (bufPreamble ++ rest) = stripFraming rest := by
  unfold stripFraming
  rw [stripBuf_bufPreamble]

theorem stripFraming_quote (rest : List Char) :
    stripFraming ('\"' :: rest) = stripFraming rest :=
  stripFraming_cons_frame _ _ (by decide) (by decide)

theorem stripFraming_newline (rest : List Char) :
    stripFraming ('\n' :: rest) = stripFraming rest :=
  stripFraming_cons_frame _ _ (by decide) (by decide)

theorem stripFraming_backslash (rest : List Char) :
    stripFraming ('\\' :: rest) = stripFraming rest :=
  stripFraming_cons_frame _ _ (by decide) (by decide)

theorem stripFraming_x (rest : List Char) :
    stripFraming ('x' :: rest) = stripFraming rest :=
  stripFraming_cons_frame _ _ (by decide) (by decide)

theorem stripFraming_wrapSeq (lang width ai : Nat) (rest : List Char) :
    stripFraming (wrapSeq lang width ai ++ rest) = stripFraming rest := by
  rcases lang with _ | _ | _ | lang <;>
    simp only [wrapSeq] <;>
    split_ifs <;>
    simp [stripFraming_quote, stripFraming_newline, stripFraming_bufPreamble,
      List.append_assoc]

/-! Head-safety: the character following a chunk boundary in the emitted
output is never the letter `u`, so a payload digit `b` can never merge with
later output into a spurious `buffer += ` occurrence. -/

theorem wrapSeq_append_head_ne_u (lang width ai : Nat) (l : List Char)
    (h : l.head? ≠ some 'u') :
    (wrapSeq lang width ai ++ l).head? ≠ some 'u' := by
  rcases lang with _ | _ | _ | lang <;>
    simp only [wrapSeq] <;>
    split_ifs <;>
    simp [bufPreamble, h]

theorem renderFrom_append_head_ne_u (lang width : Nat) (ds : List Char)
    (ai : Nat) (tail : List Char)
    (hds : ∀ d ∈ ds, d ≠ 'u') (htail : tail.head? ≠ some 'u') :
    (renderFrom lang width ai ds ++ tail).head? ≠ some 'u' := by
  cases ds with
  | nil => simpa [renderFrom] using htail
  | cons d ds =>
    have hd : d ≠ 'u' := hds d (List.mem_cons_self d ds)
    by_cases hai : ai % 2 = 0
    · simp only [renderFrom, hai, if_pos, List.append_assoc, List.cons_append]
      exact wrapSeq_append_head_ne_u _ _ _ _ (by simp)
    · simp only [renderFrom, hai, if_neg, if_false, List.append_assoc,
        List.cons_append, List.head?_cons]
      simpa using hd

/-- Stripping the framing from the loop's output recovers exactly the accepted
digits, whatever follows the loop output (as long as it cannot start a
spurious preamble match). -/
theorem stripFraming_renderFrom (lang width : Nat) (ds : List Char) :
    ∀ (ai : Nat) (tail : List Char),
    (∀ d ∈ ds, frameChar d = false ∧ d ≠ 'u') →
    tail.head? ≠ some 'u' →
    stripFraming (renderFrom lang width ai ds ++ tail) = ds ++ stripFraming tail := by
  induction ds with
  | nil =>
    intro ai tail _ _
    simp [renderFrom]
  | cons d ds ih =>
    intro ai tail hds htail
    have hd : frameChar d = false ∧ d ≠ 'u' := hds d (List.mem_cons_self d ds)
    have hds' : ∀ x ∈ ds, frameChar x = false ∧ x ≠ 'u' :=
      fun x hx => hds x (List.mem_cons_of_mem d hx)
    have hsafe : (renderFrom lang width (ai + 1) ds ++ tail).head? ≠ some 'u' :=
      renderFrom_append_head_ne_u lang width ds (ai + 1) tail
        (fun x hx => (hds' x hx).2) htail
    by_cases hai : ai % 2 = 0
    · simp only [renderFrom, hai, if_pos, List.append_assoc, List.cons_append,
        List.nil_append]
      rw [stripFraming_wrapSeq, stripFraming_backslash, stripFraming_x,
        stripFraming_cons_keep d _ hd.1 hsafe, ih (ai + 1) tail hds' htail]
    · simp only [renderFrom, hai, if_false, List.cons_append, List.nil_append]
      rw [stripFraming_cons_keep d _ hd.1 hsafe, ih (ai + 1) tail hds' htail]

/-! Correspondence between the formatter's loop and the digit renderings. -/

theorem hexLoop_out (lang width : Nat) (input : List Int) :
    ∀ ai : Nat,
      (hexLoop lang width ai input).1 = renderFrom lang width ai (acceptedDigits input) := by
  induction input with
  | nil => intro ai; simp [hexLoop, acceptedDigits, renderFrom]
  | cons c rest ih =>
    intro ai
    by_cases hc : isHexDigitInt c
    · simp [hexLoop, acceptedDigits, List.filter_cons, hc, renderFrom, ih ai,
        ih (ai + 1)]
    · by_cases hskip : c = -1 ∨ c = 10 ∨ c = 0 <;>
        simp [hexLoop, acceptedDigits, List.filter_cons, hc, hskip, ih ai]

theorem hexLoop_finalAi (lang width : Nat) (input : List Int) :
    ∀ ai : Nat,
      (hexLoop lang width ai input).2.1 = ai + (input.filter isHexDigitInt).length := by
  induction input with
  | nil => intro ai; simp [hexLoop]
  | cons c rest ih =>
    intro ai
    by_cases hc : isHexDigitInt c
    · simp [hexLoop, List.filter_cons, hc, ih (ai + 1)]
      omega
    · by_cases hskip : c = -1 ∨ c = 10 ∨ c = 0 <;>
        simp [hexLoop, List.filter_cons, hc, hskip, ih ai]

theorem hexLoop_invalidCount (lang width : Nat) (input : List Int) :
    ∀ ai : Nat,
      (hexLoop lang width ai input).2.2 = (input.filter isInvalidChar).length := by
  induction input with
  | nil => intro ai; simp [hexLoop]
  | cons c rest ih =>
    intro ai
    by_cases hc : isHexDigitInt c
    · simp [hexLoop, List.filter_cons, hc, isInvalidChar, ih (ai + 1)]
    · by_cases hskip : c = -1 ∨ c = 10 ∨ c = 0 <;>
        simp [hexLoop, List.filter_cons, hc, hskip, isInvalidChar, ih ai]

theorem wrapSeq_two_mul (lang width k : Nat) :
    wrapSeq lang width (2 * k) = markAt lang width k := by
  by_cases hw : width = 0
  · simp [wrapSeq, markAt, hw]
  · by_cases hk : k % width = 0
    · have h2 : 2 * k % (width * 2) = 0 := by
        rw [Nat.mul_comm width 2, Nat.mul_mod_mul_left, hk]
      by_cases hk0 : k = 0
      · subst hk0
        rcases lang with _ | _ | _ | lang <;>
          simp [wrapSeq, markAt, wrapMarker, hw, hk, h2]
      · have h2k : 2 * k ≠ 0 := by omega
        rcases lang with _ | _ | _ | lang <;>
          simp [wrapSeq, markAt, wrapMarker, hw, hk, h2, hk0, h2k]
    · have h2 : ¬(2 * k % (width * 2) = 0) := by
        rw [Nat.mul_comm width 2, Nat.mul_mod_mul_left]
        omega
      simp [wrapSeq, markAt, hw, hk, h2]

theorem renderFrom_two_mul_aux (lang width : Nat) :
    ∀ (n : Nat) (ds : List Char), ds.length ≤ n → ∀ k : Nat,
      renderFrom lang width (2 * k) ds = renderDigits lang width k ds := by
  intro n
  induction n with
  | zero =>
    intro ds hds k
    have : ds = [] := List.eq_nil_of_length_eq_zero (Nat.le_zero.mp hds)
    subst this
    simp [renderFrom, renderDigits]
  | succ n ih =>
    intro ds hds k
    match ds with
    | [] => simp [renderFrom, renderDigits]
    | [h] =>
      have h1 : 2 * k % 2 = 0 := Nat.mul_mod_right 2 k
      simp [renderFrom, renderDigits, h1, wrapSeq_two_mul]
    | h :: l :: rest =>
      have h1 : 2 * k % 2 = 0 := Nat.mul_mod_right 2 k
      have h2 : ¬((2 * k + 1) % 2 = 0) := by omega
      have h3 : 2 * k + 1 + 1 = 2 * (k + 1) := by ring
      have hlen : rest.length ≤ n := by
        simp only [List.length_cons] at hds
        omega
      simp only [renderFrom, renderDigits, h1, h2, if_true, if_false,
        if_pos, if_neg, wrapSeq_two_mul, h3]
      rw [ih rest hlen (k + 1)]
      simp [List.append_assoc]

theorem renderFrom_two_mul (lang width k : Nat) (ds : List Char) :
    renderFrom lang width (2 * k) ds = renderDigits lang width k ds :=
  renderFrom_two_mul_aux lang width ds.length ds (Nat.le_refl _) k

theorem renderFrom_zero (lang width : Nat) (ds : List Char) :
    renderFrom lang width 0 ds = renderDigits lang width 0 ds := by
  have := renderFrom_two_mul lang width 0 ds
  simpa using this

/-! Auxiliary facts used by the claim theorems. -/

theorem charOf_good (c : Int) (h : isHexDigitInt c = true) :
    frameChar (charOf c) = false ∧ charOf c ≠ 'u' := by
  have h' : (48 ≤ c ∧ c ≤ 57) ∨ (65 ≤ c ∧ c ≤ 70) ∨ (97 ≤ c ∧ c ≤ 102) :=
    of_decide_eq_true h
  rcases h' with ⟨h1, h2⟩ | ⟨h1, h2⟩ | ⟨h1, h2⟩ <;> interval_cases c <;> decide

theorem stripFraming_closing (lang : Nat) :
    stripFraming (closingQuote lang ++ ['\n']) = [] := by
  rcases lang with _ | _ | _ | lang <;>
    simp [closingQuote, stripFraming_quote, stripFraming_newline, stripFraming_nil]

theorem closing_head_ne_u (lang : Nat) :
    (closingQuote lang ++ ['\n']).head? ≠ some 'u' := by
  rcases lang with _ | _ | _ | lang <;> simp [closingQuote]

theorem output_no_flags (input : List Int) (lang width : Nat) :
    output_hex_escaped_string input lang width false false =
      renderFrom lang width 0 (acceptedDigits input) ++ (closingQuote lang ++ ['\n']) := by
  simp [output_hex_escaped_string, hexLoop_out, List.append_assoc]

theorem renderDigits_snoc_aux (lang width : Nat) (d : Char) :
    ∀ (n : Nat) (ds : List Char), ds.length ≤ n → ds.length % 2 = 0 → ∀ k : Nat,
      renderDigits lang width k (ds ++ [d]) =
        renderDigits lang width k ds ++ markAt lang width (k + ds.length / 2) ++
          ['\\', 'x', d] := by
  intro n
  induction n with
  | zero =>
    intro ds hds _ k
    have : ds = [] := List.eq_nil_of_length_eq_zero (Nat.le_zero.mp hds)
    subst this
    simp [renderDigits]
  | succ n ih =>
    intro ds hds hev k
    match ds with
    | [] => simp [renderDigits]
    | [h] => simp at hev
    | h :: l :: rest =>
      have hlen : rest.length ≤ n := by
        simp only [List.length_cons] at hds
        omega
      have hev' : rest.length % 2 = 0 := by
        simp only [List.length_cons] at hev
        omega
      have hdiv : k + 1 + rest.length / 2 = k + (h :: l :: rest).length / 2 := by
        simp only [List.length_cons]
        omega
      simp only [List.cons_append, renderDigits, List.append_eq]
      rw [ih rest hlen hev' (k + 1), hdiv]
      simp [List.append_assoc]

theorem renderDigits_snoc (lang width k : Nat) (ds : List Char) (d : Char)
    (hev : ds.length % 2 = 0) :
    renderDigits lang width k (ds ++ [d]) =
      renderDigits lang width k ds ++ markAt lang width (k + ds.length / 2) ++
        ['\\', 'x', d] :=
  renderDigits_snoc_aux lang width d ds.length ds (Nat.le_refl _) hev k

theorem read_and_store_spec (bs : List Nat) :
    ∀ size : Nat, read_and_store_char_input bs size = (bs, size + bs.length) := by
  induction bs with
  | nil => intro size; simp [read_and_store_char_input]
  | cons c rest ih =>
    intro size
    simp [read_and_store_char_input, ih]
    omega

theorem fileStoreLoop_mode1 (bs : List Nat) :
    ∀ size : Nat, fileStoreLoop 1 bs size = (bs, size + bs.length) := by
  induction bs with
  | nil => intro size; simp [fileStoreLoop]
  | cons c rest ih =>
    intro size
    simp [fileStoreLoop, ih]
    omega

theorem fileStoreLoop_mode2 (bs : List Nat) :
    ∀ size : Nat,
      fileStoreLoop 2 bs size = (bs.flatMap hex2codes, size + 2 * bs.length) := by
  induction bs with
  | nil => intro size; simp [fileStoreLoop]
  | cons c rest ih =>
    intro size
    simp [fileStoreLoop, ih]
    omega

theorem length_flatMap_hex2codes (bs : List Nat) :
    (bs.flatMap hex2codes).length = 2 * bs.length := by
  induction bs with
  | nil => simp
  | cons c rest ih =>
    simp [hex2codes, hex2, ih]
    omega

/-! Claim theorems. -/

/-- Claim C1, counterexample: with syntax `c` and width 0 the complete output
for input characters `414243` is NOT `"\x41\x42\x43"` followed by a newline —
the opening quote is only ever emitted inside the `string_width != 0` wrap
block, so with width 0 no opening quote appears. -/
theorem claim_C1_counterexample :
    output_hex_escaped_string [52, 49, 52, 50, 52, 51] 1 0 false false ≠
      "\"\\x41\\x42\\x43\"\n".toList := by
  decide

/-- Claim C1, amended: for the 6 input characters `414243`, with syntax plain
and width 0 the complete output is `\x41\x42\x43` followed by one newline;
with syntax `c` and width 0 it is `\x41\x42\x43"` followed by one newline
(closing quote but no opening quote); with syntax `c` and width 1 it is
`"\x41"`, newline, `"\x42"`, newline, `"\x43"` followed by one newline. -/
theorem claim_C1_amended :
    output_hex_escaped_string [52, 49, 52, 50, 52, 51] 0 0 false false =
      "\\x41\\x42\\x43\n".toList ∧
    output_hex_escaped_string [52, 49, 52, 50, 52, 51] 1 0 false false =
      "\\x41\\x42\\x43\"\n".toList ∧
    output_hex_escaped_string [52, 49, 52, 50, 52, 51] 1 1 false false =
      "\"\\x41\"\n\"\\x42\"\n\"\\x43\"\n".toList := by
  exact ⟨by decide, by decide, by decide⟩

/-- Claim C2: for every input consisting solely of hex-digit characters and of
even length, stripping the framing (the `\x` escape characters, quotes,
newlines and the Python `buffer += ` preambles) from the formatter's output
recovers exactly the original digit characters, in order, for every syntax
and every wrap width. -/
theorem claim_C2 (input : List Int) (lang width : Nat)
    (hhex : ∀ c ∈ input, isHexDigitInt c = true)
    (heven : input.length % 2 = 0) :
    stripFraming (output_hex_escaped_string input lang width false false) =
      input.map charOf := by
  have hfilter : input.filter isHexDigitInt = input := List.filter_eq_self.mpr hhex
  have hacc : acceptedDigits input = input.map charOf := by
    rw [acceptedDigits, hfilter]
  rw [output_no_flags, hacc]
  rw [stripFraming_renderFrom lang width (input.map charOf) 0
      (closingQuote lang ++ ['\n'])
      (fun d hd => by
        obtain ⟨c, hc, rfl⟩ := List.mem_map.mp hd
        exact charOf_good c (hhex c hc))
      (closing_head_ne_u lang)]
  rw [stripFraming_closing]
  simp

/-- Claim C2 witness at the concrete even all-hex input `41`. -/
theorem claim_C2_witness :
    stripFraming (output_hex_escaped_string [52, 49] 2 1 false false) =
      ([52, 49] : List Int).map charOf :=
  claim_C2 [52, 49] 2 1 (by decide) (by decide)

/-- Claim C3: for every input and every wrap width greater than zero, the
formatter's output is exactly the byte-at-a-time rendering of its accepted
digits: before every byte whose index is a multiple of the width — and only
there — the syntax-specific wrap marker appears (with its close-quote/newline
part suppressed for byte 0), immediately followed by the contiguous escape
`\xHL` of that byte, so a marker never separates the two digits of a pair. -/
theorem claim_C3 (input : List Int) (lang width : Nat) (hw : 0 < width) :
    output_hex_escaped_string input lang width false false =
      renderDigits lang width 0 (acceptedDigits input) ++
        closingQuote lang ++ ['\n'] := by
  rw [output_no_flags, renderFrom_zero]
  simp [List.append_assoc]

/-- Claim C3 witness at input `4142` with C syntax and width 1. -/
theorem claim_C3_witness :
    0 < 1 ∧
    output_hex_escaped_string [52, 49, 52, 50] 1 1 false false =
      renderDigits 1 1 0 (acceptedDigits [52, 49, 52, 50]) ++
        closingQuote 1 ++ ['\n'] :=
  ⟨by decide, claim_C3 [52, 49, 52, 50] 1 1 (by decide)⟩

/-- Claim C4: in one formatter run, invalid bytes (non-hex, non-EOF/newline/
null) are counted and contribute nothing: the written characters equal those
of the run on the hex digits alone, the final digit index `ai` equals the
number of accepted digits, the counter equals the number of invalid bytes,
and the full output equals the output on the hex digits alone followed by the
diagnostic line exactly when verbose is set and the counter is positive — so
the run still produces its full output. -/
theorem claim_C4 (input : List Int) (lang width : Nat) :
    (hexLoop lang width 0 input).1 =
      (hexLoop lang width 0 (input.filter isHexDigitInt)).1 ∧
    (hexLoop lang width 0 input).2.1 = (input.filter isHexDigitInt).length ∧
    (hexLoop lang width 0 input).2.2 = (input.filter isInvalidChar).length ∧
    ∀ verbose interactive : Bool,
      output_hex_escaped_string input lang width verbose interactive =
        output_hex_escaped_string (input.filter isHexDigitInt) lang width
          verbose interactive ++
        (if verbose && (input.filter isInvalidChar).length > 0
          then warningLine (input.filter isInvalidChar).length else []) := by
  have hself : (input.filter isHexDigitInt).filter isHexDigitInt =
      input.filter isHexDigitInt :=
    List.filter_eq_self.mpr (fun c hc => List.of_mem_filter hc)
  have hffnil : (input.filter isHexDigitInt).filter isInvalidChar = [] := by
    rw [List.filter_eq_nil_iff]
    intro c hc
    have hc' : isHexDigitInt c = true := List.of_mem_filter hc
    simp [isInvalidChar, hc']
  have h1 : (hexLoop lang width 0 input).1 =
      (hexLoop lang width 0 (input.filter isHexDigitInt)).1 := by
    rw [hexLoop_out, hexLoop_out]
    unfold acceptedDigits
    rw [hself]
  have h2 : (hexLoop lang width 0 input).2.1 =
      (input.filter isHexDigitInt).length := by
    rw [hexLoop_finalAi]
    omega
  have h3 : (hexLoop lang width 0 input).2.2 =
      (input.filter isInvalidChar).length := hexLoop_invalidCount lang width input 0
  have h3' : (hexLoop lang width 0 (input.filter isHexDigitInt)).2.2 = 0 := by
    rw [hexLoop_invalidCount, hffnil]
    rfl
  refine ⟨h1, h2, h3, ?_⟩
  intro verbose interactive
  simp only [output_hex_escaped_string, h1, h3, h3']
  simp [List.append_assoc]

/-- Claim C5: for every input with an odd number of accepted hex digits, the
formatter emits all but the last digit as full byte pairs, then the last
accepted digit as a lone `\xH` escape with no paired low nibble, and still
emits the syntax's closing quote and the trailing newline; in particular the
input `4` with syntax plain and width 0 yields `\x4` followed by a newline. -/
theorem claim_C5 :
    (∀ (input : List Int) (lang width : Nat) (d : Char),
      (acceptedDigits input).getLast? = some d →
      (acceptedDigits input).length % 2 = 1 →
      output_hex_escaped_string input lang width false false =
        renderDigits lang width 0 (acceptedDigits input).dropLast ++
          markAt lang width ((acceptedDigits input).length / 2) ++
          ['\\', 'x', d] ++ closingQuote lang ++ ['\n']) ∧
    output_hex_escaped_string [52] 0 0 false false = "\\x4\n".toList := by
  constructor
  · intro input lang width d hlast hodd
    have hne : acceptedDigits input ≠ [] := by
      intro h
      rw [h] at hlast
      simp at hlast
    have hlast' : (acceptedDigits input).getLast hne = d := by
      rw [List.getLast?_eq_getLast _ hne] at hlast
      exact Option.some.inj hlast
    have hsplit : (acceptedDigits input).dropLast ++ [d] = acceptedDigits input := by
      rw [← hlast']
      exact List.dropLast_append_getLast hne
    have hevenDrop : (acceptedDigits input).dropLast.length % 2 = 0 := by
      rw [List.length_dropLast]
      omega
    have hdiv : 0 + (acceptedDigits input).dropLast.length / 2 =
        (acceptedDigits input).length / 2 := by
      rw [List.length_dropLast]
      omega
    rw [output_no_flags, renderFrom_zero]
    conv_lhs => rw [← hsplit]
    rw [renderDigits_snoc lang width 0 _ d hevenDrop, hdiv]
    simp [List.append_assoc]
  · decide

/-- Claim C5 witness: the general part applied to the input `4` (one digit). -/
theorem claim_C5_witness :
    output_hex_escaped_string [52] 0 7 false false =
      renderDigits 0 7 0 (acceptedDigits [52]).dropLast ++
        markAt 0 7 ((acceptedDigits [52]).length / 2) ++
        ['\\', 'x', '4'] ++ closingQuote 0 ++ ['\n'] :=
  claim_C5.1 [52] 0 7 '4' (by decide) (by decide)

/-- Claim C6: the bad-character generator produces exactly 510 characters,
whose consecutive hex-digit pairs decode to exactly 1 through 255 in strictly
ascending order, with no duplicate pair and no `00` pair, every character
being a lowercase hex digit; and `main` hands this buffer to the formatter
with `array_size` equal to `BADCHAR_HEX_SEQLEN = 510`, the exact length of
the buffer. -/
theorem claim_C6 :
    generate_badchar_sequence.length = 510 ∧
    decodePairs generate_badchar_sequence = List.range' 1 255 ∧
    List.Chain' (fun a b => a < b) (decodePairs generate_badchar_sequence) ∧
    (decodePairs generate_badchar_sequence).Nodup ∧
    0 ∉ decodePairs generate_badchar_sequence ∧
    (∀ c ∈ generate_badchar_sequence,
      ('0' ≤ c ∧ c ≤ '9') ∨ ('a' ≤ c ∧ c ≤ 'f')) ∧
    BADCHAR_HEX_SEQLEN = generate_badchar_sequence.length := by
  have hdec : decodePairs generate_badchar_sequence = List.range' 1 255 := by decide
  refine ⟨by decide, hdec, ?_, ?_, ?_, by decide, by decide⟩
  · rw [hdec]
    exact (List.pairwise_lt_range' 1 255).chain'
  · rw [hdec]
    exact List.nodup_range' 1 255
  · rw [hdec]
    simp [List.mem_range'_1]

/-- Claim C7, counterexample: when the file cannot be opened, the dump-file
action DOES write to standard output — the error message itself is printed
with `printf`, which targets standard output — so the claim's "writes no
output to standard output" is false at this concrete input. -/
theorem claim_C7_counterexample :
    (bst_main 2 2 false false true false false 0 0 false false "bstrings"
      "missing.bin" none []).1 ≠ [] := by
  decide

/-- Claim C7, amended: for every file path that cannot be opened, the
dump-file action and the hex-escape action reading from a file (with or
without the hex-expand mode) terminate with exit status 1 after writing to
standard output exactly the descriptive message, which includes the offending
path; no other output (in particular no dump or literal output) is produced
in a non-verbose run. -/
theorem claim_C7_amended (filename : String) (lang width : Nat)
    (interactive useHexExpand : Bool) :
    bst_main 2 2 false false true false false lang width false interactive
      "bstrings" filename none [] = (errorMsgFor filename, 1) ∧
    bst_main 2 2 true false useHexExpand true false lang width false interactive
      "bstrings" filename none [] = (errorMsgFor filename, 1) ∧
    errorMsgFor filename =
      "Error: input filename \"".toList ++ filename.toList ++
        "\" cannot be read.\n".toList := by
  refine ⟨?_, ?_, ?_⟩
  · simp [bst_main, read_from_file]
  · cases useHexExpand <;> simp [bst_main, read_from_file]
  · simp [errorMsgFor, String.toList]

/-- Claim C8, counterexample: an invocation that selects no action but passes
a modifier flag (here `--verbose`: `argc = 2`, `optind = 2` after parsing)
does NOT print the usage text — the usage branch requires a non-option
argument or `argc == 1`. -/
theorem claim_C8_counterexample :
    (bst_main 2 2 false false false false false 0 0 true false "bstrings" ""
      none []).1 ≠ print_usage "bstrings" := by
  decide

/-- Claim C8, amended: for every invocation made with no arguments at all
(`argc = 1`) or leaving a non-option argument (`optind < argc`), the program
prints the usage text to standard output and exits with status 0, whatever
the values of every flag — the usage branch runs before any flag is read, so
this holds under every resolution of the action flags the C source reads
uninitialized.  An invocation that selects no action but passes only modifier
flags skips this branch and then reads the uninitialized action flags, so the
source guarantees no determinate behavior there (and in particular not the
usage output the original claim asserts). -/
theorem claim_C8_amended (argc optind : Nat)
    (doOutputHexEscapedString doOutputBadCharString doHexDumpFile
      doReadFromFile doLimitBinaryStringWidth : Bool) (lang width : Nat)
    (verbose interactive : Bool) (prog filename : String)
    (fileContent : Option (List Nat)) (stdinBytes : List Nat)
    (h : optind < argc ∨ argc = 1) :
    bst_main argc optind doOutputHexEscapedString doOutputBadCharString
      doHexDumpFile doReadFromFile doLimitBinaryStringWidth lang width
      verbose interactive prog filename fileContent stdinBytes =
      (print_usage prog, 0) := by
  simp [bst_main, h]

/-- Claim C8 witness: a no-argument invocation (`argc = 1`), with arbitrary
concrete values for every flag. -/
theorem claim_C8_witness :
    bst_main 1 1 true false true false true 2 4 true false "bstrings" "f.bin"
      none [1, 2] = (print_usage "bstrings", 0) :=
  claim_C8_amended 1 1 true false true false true 2 4 true false "bstrings"
    "f.bin" none [1, 2] (by decide)

/-- Claim C9: a buffer byte 0xFF is widened through the signed `char` to the
`int` value -1, i.e. `EOF`, so the formatter skips it silently — no output,
no count; every byte value in 0x80..0xFE widens to a negative value that is
neither a hex digit nor `EOF`/newline/null, so it increments the
invalid-character counter and contributes nothing. -/
theorem claim_C9 (lang width ai : Nat) (b : Nat) :
    (sext 255 = -1 ∧ hexLoop lang width ai [sext 255] = ([], ai, 0)) ∧
    (128 ≤ b → b ≤ 254 →
      isInvalidChar (sext b) = true ∧
        hexLoop lang width ai [sext b] = ([], ai, 1)) := by
  constructor
  · have h255 : sext 255 = -1 := by norm_num [sext]
    refine ⟨h255, ?_⟩
    rw [h255]
    simp [hexLoop, isHexDigitInt]
  · intro h1 h2
    have hs : sext b = (b : Int) - 256 := by
      unfold sext
      rw [if_neg (by omega)]
    have hlb : (128 : Int) ≤ (b : Int) := by exact_mod_cast h1
    have hub : (b : Int) ≤ 254 := by exact_mod_cast h2
    have hhex : isHexDigitInt ((b : Int) - 256) = false := by
      simp only [isHexDigitInt, decide_eq_false_iff_not]
      omega
    have hskip : ¬((b : Int) - 256 = -1 ∨ (b : Int) - 256 = 10 ∨
        (b : Int) - 256 = 0) := by
      omega
    rw [hs]
    refine ⟨?_, ?_⟩
    · simp [isInvalidChar, hhex, hskip]
    · simp [hexLoop, hhex, hskip]

/-- Claim C9 witness at byte 0x82 = 130. -/
theorem claim_C9_witness :
    isInvalidChar (sext 130) = true ∧ hexLoop 1 4 6 [sext 130] = ([], 6, 1) :=
  (claim_C9 1 4 6 130).2 (by decide) (by decide)

/-- Claim C10: the length handed to the formatter exceeds the number of
characters actually stored — by exactly one for standard-input reading and
for raw file reading (the size starts at 1 and is bumped once per stored
byte), and by exactly two for the hex-expand mode (an extra initial bump of 1
plus 2 per input byte against 2 stored digit characters), so the formatter's
scan covers trailing buffer positions that were never written. -/
theorem claim_C10 (stdinBytes fileBytes : List Nat) (filename : String) :
    read_and_store_char_input stdinBytes 1 =
      (stdinBytes, stdinBytes.length + 1) ∧
    read_from_file filename (some fileBytes) 1 1 =
      Except.ok (fileBytes, fileBytes.length + 1, []) ∧
    read_from_file filename (some fileBytes) 1 2 =
      Except.ok (fileBytes.flatMap hex2codes, 2 * fileBytes.length + 2, []) ∧
    (fileBytes.flatMap hex2codes).length = 2 * fileBytes.length := by
  refine ⟨?_, ?_, ?_, length_flatMap_hex2codes fileBytes⟩
  · rw [read_and_store_spec]
    simp [Nat.add_comm]
  · simp [read_from_file, fileStoreLoop_mode1, Nat.add_comm]
  · simp [read_from_file, fileStoreLoop_mode2, Nat.add_comm]
